import Mathlib

/-!
Shallow embedding of the trader-sim portfolio ledger, trade validator and
trade executor (src/portfolio.py, src/trades.py, src/config.py) and of the
RSI indicator (src/market_data.py), together with proofs about them.

Modelling conventions:
* Python floats are modelled as exact rationals; `round(x, 2)` is modelled
  by `round2`, rounding to a whole number of hundredths.
* Python exceptions (`ZeroDivisionError`, `ValueError`, `KeyError`) are
  modelled with `Except PyError`; functions that cannot raise keep a plain
  return type.
* The market-data collaborator (`get_current_price` / `get_current_prices`)
  is modelled by an explicit association-list price map; a missing key is an
  unavailable price.
* Python dicts are modelled as association lists with first-key update
  semantics (`lookupH` / `setH` / `delH`), which agrees with dict semantics
  on the duplicate-free lists all reachable states have.
* `Portfolio.save` is out-of-scope persistence I/O and does not change the
  in-memory state, so it is omitted; `Transaction.timestamp` comes from the
  wall clock (an external effect) and is likewise omitted.
* Message strings produced with f-string interpolation are modelled by the
  inductive type `Msg`, one constructor per format string, carrying the
  interpolated values.
* pandas NaN outcomes (the RSI of an all-flat window) are modelled as
  `none`.
-/

/-- Python `round(x, 2)` on an exact rational: round to a whole number of
hundredths.  (CPython rounds ties to even on binary floats; every claim
only uses the tolerance `|round2 q - q| ≤ 1/200`, which holds for either
tie-breaking rule.) -/
def round2 (q : ℚ) : ℚ := (round (q * 100) : ℤ) / 100

/-- Python `int(q)`: truncation toward zero. -/
def pyInt (q : ℚ) : ℤ := if q < 0 then -⌊-q⌋ else ⌊q⌋

theorem round2_sub_le (q : ℚ) : |round2 q - q| ≤ 1 / 200 := by
  have h : |q * 100 - (round (q * 100) : ℚ)| ≤ 1 / 2 := abs_sub_round (q * 100)
  have heq : round2 q - q = ((round (q * 100) : ℚ) - q * 100) / 100 := by
    unfold round2; ring
  rw [heq, abs_div, abs_sub_comm]
  have h100 : |(100 : ℚ)| = 100 := by norm_num
  rw [h100]
  have h2 : |q * 100 - (round (q * 100) : ℚ)| / 100 ≤ (1 / 2) / 100 :=
    (div_le_div_right (by norm_num)).mpr h
  linarith

/-- src/portfolio.py, `Holding`: a stock holding. -/
structure Holding where
  symbol : String
  shares : ℚ
  cost_basis : ℚ
  avg_price : ℚ
deriving DecidableEq

/-- src/portfolio.py, `Transaction` (timestamp omitted: wall-clock effect). -/
structure Transaction where
  action : String
  symbol : String
  shares : ℚ
  price : ℚ
  total : ℚ
deriving DecidableEq

/-- src/portfolio.py, `Portfolio`: cash, holdings dict, transaction list,
start date and day counter. -/
structure Portfolio where
  cash : ℚ
  holdings : List (String × Holding)
  transactions : List Transaction
  start_date : String
  day : ℕ
deriving DecidableEq

/-- Price map returned by the market-data collaborator. -/
def PriceMap : Type := List (String × ℚ)

/-- Dict lookup `d[k]` / `k in d` (first matching key). -/
def lookupH : List (String × Holding) → String → Option Holding
  | [], _ => none
  | (k, v) :: rest, s => if k = s then some v else lookupH rest s

/-- Dict update `d[k] = v`: replace in place if present, append if absent. -/
def setH : List (String × Holding) → String → Holding → List (String × Holding)
  | [], s, h => [(s, h)]
  | (k, v) :: rest, s, h => if k = s then (s, h) :: rest else (k, v) :: setH rest s h

/-- Dict deletion `del d[k]`. -/
def delH : List (String × Holding) → String → List (String × Holding)
  | [], _ => []
  | (k, v) :: rest, s => if k = s then delH rest s else (k, v) :: delH rest s

/-- Price lookup in the collaborator's price map. -/
def lookupP : PriceMap → String → Option ℚ
  | [], _ => none
  | (k, v) :: rest, s => if k = s then some v else lookupP rest s

theorem lookupH_setH_self (hs : List (String × Holding)) (s : String) (h : Holding) :
    lookupH (setH hs s h) s = some h := by
  induction hs with
  | nil => simp [setH, lookupH]
  | cons kh rest ih =>
    obtain ⟨k, v⟩ := kh
    by_cases hk : k = s
    · subst hk; simp [setH, lookupH]
    · simp [setH, lookupH, hk, ih]

theorem lookupH_setH_ne (hs : List (String × Holding)) (s t : String) (h : Holding)
    (hne : t ≠ s) : lookupH (setH hs s h) t = lookupH hs t := by
  induction hs with
  | nil => simp [setH, lookupH, Ne.symm hne]
  | cons kh rest ih =>
    obtain ⟨k, v⟩ := kh
    by_cases hk : k = s
    · subst hk; simp [setH, lookupH, Ne.symm hne]
    · simp [setH, lookupH, hk, ih]

theorem lookupH_delH_self (hs : List (String × Holding)) (s : String) :
    lookupH (delH hs s) s = none := by
  induction hs with
  | nil => simp [delH, lookupH]
  | cons kh rest ih =>
    obtain ⟨k, v⟩ := kh
    by_cases hk : k = s
    · subst hk; simp [delH, ih]
    · simp [delH, lookupH, hk, ih]

theorem lookupH_delH_ne (hs : List (String × Holding)) (s t : String) (hne : t ≠ s) :
    lookupH (delH hs s) t = lookupH hs t := by
  induction hs with
  | nil => simp [delH]
  | cons kh rest ih =>
    obtain ⟨k, v⟩ := kh
    by_cases hk : k = s
    · subst hk; simp [delH, lookupH, Ne.symm hne, ih]
    · simp [delH, lookupH, hk, ih]

/-- Python exceptions that the embedded code can raise. -/
inductive PyError where
  | zeroDivision
  | noHolding (symbol : String)
  | insufficientShares (owned selling : ℚ)
  | keyError (symbol : String)
deriving DecidableEq

/-- src/portfolio.py `Portfolio.add_holding`: add shares to a holding (for
buys).  The division `new_cost_basis / new_shares` raises
`ZeroDivisionError` in Python when `new_shares == 0`, modelled by the
explicit guard. -/
def Portfolio.add_holding (p : Portfolio) (symbol : String) (shares price : ℚ) :
    Except PyError Portfolio :=
  let total_cost := shares * price
  match lookupH p.holdings symbol with
  | some existing =>
    let new_shares := existing.shares + shares
    if new_shares = 0 then .error .zeroDivision
    else
      let new_cost_basis := existing.cost_basis + total_cost
      let new_avg_price := new_cost_basis / new_shares
      let nh : Holding := ⟨symbol, new_shares, new_cost_basis, round2 new_avg_price⟩
      .ok { p with holdings := setH p.holdings symbol nh }
  | none =>
    let nh : Holding := ⟨symbol, shares, total_cost, price⟩
    .ok { p with holdings := setH p.holdings symbol nh }

/-- src/portfolio.py `Portfolio.remove_holding`: remove shares from a
holding (for sells); raises `ValueError` when the symbol is absent or the
holding is too small.  `price` is accepted and unused, as in the source. -/
def Portfolio.remove_holding (p : Portfolio) (symbol : String) (shares price : ℚ) :
    Except PyError Portfolio :=
  match lookupH p.holdings symbol with
  | none => .error (.noHolding symbol)
  | some holding =>
    if holding.shares < shares then .error (.insufficientShares holding.shares shares)
    else if shares = holding.shares then
      .ok { p with holdings := delH p.holdings symbol }
    else
      let remaining_shares := holding.shares - shares
      let remaining_cost_basis := holding.cost_basis * (1 - shares / holding.shares)
      let nh : Holding := ⟨symbol, remaining_shares, remaining_cost_basis, holding.avg_price⟩
      .ok { p with holdings := setH p.holdings symbol nh }

/-- src/portfolio.py `Portfolio.record_transaction`. -/
def Portfolio.record_transaction (p : Portfolio) (action symbol : String)
    (shares price : ℚ) : Portfolio :=
  { p with transactions :=
      p.transactions ++ [⟨action, symbol, shares, price, round2 (shares * price)⟩] }

/-- src/portfolio.py `Portfolio.get_holdings_value` with the price map made
an explicit argument; a symbol missing from the map is valued at its
average price (degrade-not-fail fallback). -/
def Portfolio.get_holdings_value (p : Portfolio) (prices : PriceMap) : ℚ :=
  if p.holdings.isEmpty then 0
  else round2 ((p.holdings.map fun kh =>
    match lookupP prices kh.1 with
    | some pr => kh.2.shares * pr
    | none => kh.2.shares * kh.2.avg_price).sum)

/-- src/portfolio.py `Portfolio.get_total_value`. -/
def Portfolio.get_total_value (p : Portfolio) (prices : PriceMap) : ℚ :=
  round2 (p.cash + p.get_holdings_value prices)

/-- src/config.py `RISK` shape: risk-management configuration. -/
structure RiskConfig where
  max_position_pct : ℚ
  max_positions : ℕ
deriving DecidableEq

/-- src/config.py: `RISK = {"max_position_pct": 0.25, "max_positions": 10}`. -/
def RISK : RiskConfig := { max_position_pct := 1 / 4, max_positions := 10 }

/-- Modelled from the spec: `validate_buy` does `from config import
BENCHMARK_ONLY`, but no definition of `BENCHMARK_ONLY` appears anywhere in
the sources; the spec describes it as the blocked set of "reserved
benchmark symbols".  The S&P 500 tracker SPY is the benchmark the
repository backfills (src/backfill_spy.py), so the set is modelled as
{"SPY"}.  Every theorem whose truth does not depend on the set's contents
takes the set as a parameter named `BENCH` instead. -/
def BENCHMARK_ONLY : List String := ["SPY"]

/-- Messages produced by src/trades.py, one constructor per format string,
carrying the interpolated values. -/
inductive Msg where
  | benchmarkBlocked (symbol : String)
  | insufficientCash (cash needed : ℚ) (maxShares : ℤ)
  | positionLimit (maxPct : ℚ)
  | maxPositions (n : ℕ)
  | valid
  | noPosition (symbol : String)
  | insufficientShares (owned selling : ℚ)
  | couldNotFetchPrice (symbol : String)
  | bought (shares : ℚ) (symbol : String) (price : ℚ)
  | sold (shares : ℚ) (symbol : String) (price pnl : ℚ)
  | unknownAction (action : String)
deriving DecidableEq

/-- src/trades.py `TradeResult`. -/
structure TradeResult where
  success : Bool
  message : Msg
  symbol : String := ""
  action : String := ""
  shares : ℚ := 0
  price : ℚ := 0
  total : ℚ := 0
deriving DecidableEq

/-- src/trades.py `validate_buy`.  The blocked set is the `BENCH`
parameter (see `BENCHMARK_ONLY`); `prices` is the snapshot the market-data
collaborator returns for `get_total_value`'s internal price fetch.
The two divisions of the source are by `price` (computing the max
affordable shares) and by `total_value` (the position-size ratio); each
raises `ZeroDivisionError` when its denominator is zero, modelled by the
explicit guards. -/
def validate_buy (BENCH : List String) (prices : PriceMap) (p : Portfolio)
    (symbol : String) (shares price : ℚ) : Except PyError (Bool × Msg) :=
  if symbol ∈ BENCH then
    .ok (false, .benchmarkBlocked symbol)
  else
    let total_cost := shares * price
    if p.cash < total_cost then
      if price = 0 then .error .zeroDivision
      else .ok (false, .insufficientCash p.cash total_cost (pyInt (p.cash / price)))
    else
      let total_value := p.get_total_value prices
      let position_value :=
        total_cost + (match lookupH p.holdings symbol with
                      | some h => h.shares * price
                      | none => 0)
      if total_value = 0 then .error .zeroDivision
      else if RISK.max_position_pct < position_value / total_value then
        .ok (false, .positionLimit RISK.max_position_pct)
      else if lookupH p.holdings symbol = none ∧ RISK.max_positions ≤ p.holdings.length then
        .ok (false, .maxPositions RISK.max_positions)
      else .ok (true, .valid)

/-- src/trades.py `validate_sell`: needs no risk configuration, no price
and can raise nothing. -/
def validate_sell (p : Portfolio) (symbol : String) (shares : ℚ) : Bool × Msg :=
  match lookupH p.holdings symbol with
  | none => (false, .noPosition symbol)
  | some holding =>
    if holding.shares < shares then (false, .insufficientShares holding.shares shares)
    else (true, .valid)

/-- src/trades.py `execute_buy`.  A `none` price argument is resolved via
the price-lookup collaborator (the `prices` map); an unavailable price
yields a non-throwing failure result.  `Portfolio.save` is persistence
I/O and is omitted. -/
def execute_buy (BENCH : List String) (prices : PriceMap) (p : Portfolio)
    (symbol : String) (shares : ℚ) (priceArg : Option ℚ) :
    Except PyError (Portfolio × TradeResult) :=
  match (match priceArg with | some pr => some pr | none => lookupP prices symbol) with
  | none => .ok (p, { success := false, message := .couldNotFetchPrice symbol })
  | some price =>
    match validate_buy BENCH prices p symbol shares price with
    | .error e => .error e
    | .ok (valid, msg) =>
      if valid then
        let total_cost := shares * price
        let p1 : Portfolio := { p with cash := p.cash - total_cost }
        match p1.add_holding symbol shares price with
        | .error e => .error e
        | .ok p2 =>
          let p3 := p2.record_transaction "BUY" symbol shares price
          .ok (p3, { success := true, message := .bought shares symbol price,
                     symbol := symbol, action := "BUY", shares := shares,
                     price := price, total := round2 total_cost })
      else .ok (p, { success := false, message := msg })

/-- src/trades.py `execute_sell`.  The subscript `portfolio.holdings[symbol]`
after validation is modelled with a `KeyError` branch (unreachable when
validation passed). -/
def execute_sell (prices : PriceMap) (p : Portfolio) (symbol : String)
    (shares : ℚ) (priceArg : Option ℚ) : Except PyError (Portfolio × TradeResult) :=
  match (match priceArg with | some pr => some pr | none => lookupP prices symbol) with
  | none => .ok (p, { success := false, message := .couldNotFetchPrice symbol })
  | some price =>
    match validate_sell p symbol shares with
    | (false, msg) => .ok (p, { success := false, message := msg })
    | (true, _) =>
      match lookupH p.holdings symbol with
      | none => .error (.keyError symbol)
      | some holding =>
        let pnl := (price - holding.avg_price) * shares
        let total_proceeds := shares * price
        let p1 : Portfolio := { p with cash := p.cash + total_proceeds }
        match p1.remove_holding symbol shares price with
        | .error e => .error e
        | .ok p2 =>
          let p3 := p2.record_transaction "SELL" symbol shares price
          .ok (p3, { success := true, message := .sold shares symbol price pnl,
                     symbol := symbol, action := "SELL", shares := shares,
                     price := price, total := round2 total_proceeds })

/-- Python `str.upper()`: character-wise upper-casing. -/
def pyUpper (s : String) : String := ⟨s.data.map Char.toUpper⟩

/-- src/trades.py `execute_trade`: dispatch on the upper-cased action. -/
def execute_trade (BENCH : List String) (prices : PriceMap) (p : Portfolio)
    (action symbol : String) (shares : ℚ) (priceArg : Option ℚ) :
    Except PyError (Portfolio × TradeResult) :=
  let actionU := pyUpper action
  let symbolU := pyUpper symbol
  if actionU = "BUY" then execute_buy BENCH prices p symbolU shares priceArg
  else if actionU = "SELL" then execute_sell prices p symbolU shares priceArg
  else .ok (p, { success := false, message := .unknownAction actionU })

/-- src/market_data.py `calculate_rsi`: the positive part of a delta
(`delta.where(delta > 0, 0)`). -/
def gainPart (d : ℚ) : ℚ := if 0 < d then d else 0

/-- src/market_data.py `calculate_rsi`: the loss magnitude of a delta
(`-delta.where(delta < 0, 0)`). -/
def lossPart (d : ℚ) : ℚ := if d < 0 then -d else 0

/-- Single-period deltas of a close series (`data['Close'].diff()`,
without the leading NaN). -/
def deltas (closes : List ℚ) : List ℚ :=
  List.zipWith (fun a b => b - a) closes closes.tail

/-- The last `k` entries of a list (a trailing rolling window). -/
def lastN (xs : List ℚ) (k : ℕ) : List ℚ := xs.drop (xs.length - k)

/-- src/market_data.py `calculate_rsi` (period 14), last value of the
series.  pandas coerces the leading NaN delta to a 0 gain and 0 loss
(`NaN > 0` and `NaN < 0` are false), hence the `0 ::` heads; the rolling
mean needs 14 rows, hence the length guard.  When the window's average
loss is zero, float division gives `rs = inf` and `RSI = 100` if the
average gain is positive, and `rs = NaN` (modelled `none`) if the average
gain is zero too. -/
def rsiLast (closes : List ℚ) : Option ℚ :=
  if closes.length < 14 then none
  else
    let gainAvg := (lastN ((0 : ℚ) :: (deltas closes).map gainPart) 14).sum / 14
    let lossAvg := (lastN ((0 : ℚ) :: (deltas closes).map lossPart) 14).sum / 14
    if lossAvg = 0 then
      if gainAvg = 0 then none else some 100
    else some (100 - 100 / (1 + gainAvg / lossAvg))

/-- A sequence of buys of one symbol applied through `add_holding`
(claim C1's setting). -/
def applyBuys (p : Portfolio) (symbol : String) : List (ℚ × ℚ) → Except PyError Portfolio
  | [] => .ok p
  | (s, pr) :: rest =>
    match p.add_holding symbol s pr with
    | .ok p1 => applyBuys p1 symbol rest
    | .error e => .error e

/-- Total shares of a buy sequence. -/
def buysShares (buys : List (ℚ × ℚ)) : ℚ := (buys.map fun b => b.1).sum

/-- Total cost of a buy sequence. -/
def buysCost (buys : List (ℚ × ℚ)) : ℚ := (buys.map fun b => b.1 * b.2).sum

/-- A sequence of BUY orders through `execute_buy`, each required to
succeed (claim C3's setting): `none` when some step raises or is
rejected.  Each element is (symbol, shares, optional explicit price). -/
def runBuys (BENCH : List String) (prices : PriceMap) :
    Portfolio → List (String × ℚ × Option ℚ) → Option Portfolio
  | p, [] => some p
  | p, t :: ts =>
    match execute_buy BENCH prices p t.1 t.2.1 t.2.2 with
    | .ok (p1, r) => if r.success then runBuys BENCH prices p1 ts else none
    | .error _ => none

/-- A single holding mutation (claim C8's setting). -/
inductive Mut where
  | add (shares price : ℚ)
  | remove (shares price : ℚ)
deriving DecidableEq

/-- Apply one holding mutation. -/
def applyMut (p : Portfolio) (symbol : String) : Mut → Except PyError Portfolio
  | .add s pr => p.add_holding symbol s pr
  | .remove s pr => p.remove_holding symbol s pr

/-- A well-formed mutation: a buy of positively many shares, or a partial
sell of part of an existing holding. -/
def mutOK (p : Portfolio) (symbol : String) : Mut → Prop
  | .add s _ => 0 < s
  | .remove s _ => 0 < s ∧ ∃ h, lookupH p.holdings symbol = some h ∧ s < h.shares

/-- The spec's holding invariant, `cost_basis == shares * avg_price`
within rounding tolerance: since `avg_price` is stored rounded to the
cent, the product can be off by up to half a cent per share. -/
def holdingConsistent (h : Holding) : Prop :=
  |h.cost_basis - h.shares * h.avg_price| ≤ h.shares * (1 / 200)

/-- Every holding of the ledger has positively many shares and satisfies
the cost-basis invariant. -/
def ledgerConsistent (p : Portfolio) : Prop :=
  ∀ s h, lookupH p.holdings s = some h → 0 < h.shares ∧ holdingConsistent h

/-- Claim C2: for a holding with positively many shares, a partial sell of
`0 < k < shares` keeps `avg_price` unchanged and scales `cost_basis` by
`(shares - k) / shares`, and selling exactly `shares` removes the symbol
from the holdings mapping. -/
theorem C2_remove_holding_partial_full (p : Portfolio) (sym : String) (hld : Holding)
    (k price : ℚ) (hl : lookupH p.holdings sym = some hld) (hpos : 0 < hld.shares) :
    (0 < k → k < hld.shares →
      ∃ p1, p.remove_holding sym k price = .ok p1 ∧
        lookupH p1.holdings sym =
          some ⟨sym, hld.shares - k,
                hld.cost_basis * ((hld.shares - k) / hld.shares), hld.avg_price⟩) ∧
    (∃ p2, p.remove_holding sym hld.shares price = .ok p2 ∧
      lookupH p2.holdings sym = none) := by
  constructor
  · intro hk0 hklt
    have hsne : hld.shares ≠ 0 := ne_of_gt hpos
    have hcb : hld.cost_basis * (1 - k / hld.shares)
        = hld.cost_basis * ((hld.shares - k) / hld.shares) := by
      field_simp
    have heq : p.remove_holding sym k price
        = .ok { p with holdings := setH p.holdings sym (Holding.mk sym (hld.shares - k)
            (hld.cost_basis * (1 - k / hld.shares)) hld.avg_price) } := by
      simp only [Portfolio.remove_holding, hl]
      rw [if_neg (not_lt.mpr hklt.le), if_neg (ne_of_lt hklt)]
    refine ⟨_, heq, ?_⟩
    rw [show (⟨sym, hld.shares - k, hld.cost_basis * ((hld.shares - k) / hld.shares),
          hld.avg_price⟩ : Holding)
        = ⟨sym, hld.shares - k, hld.cost_basis * (1 - k / hld.shares), hld.avg_price⟩ by
      rw [hcb]]
    exact lookupH_setH_self _ _ _
  · have heq : p.remove_holding sym hld.shares price
        = .ok { p with holdings := delH p.holdings sym } := by
      simp [Portfolio.remove_holding, hl]
    exact ⟨_, heq, lookupH_delH_self _ _⟩

/-- Witness for C2 at a concrete ledger: PLTR held 10 shares, cost basis
1100, average price 110; sell 4 of 10, then 10 of 10. -/
theorem C2_remove_holding_partial_full_witness :
    (∃ p1, Portfolio.remove_holding
        ⟨1000, [("PLTR", ⟨"PLTR", 10, 1100, 110⟩)], [], "2026-01-01", 1⟩ "PLTR" 4 130
        = .ok p1 ∧
      lookupH p1.holdings "PLTR" = some ⟨"PLTR", 10 - 4, 1100 * ((10 - 4) / 10), 110⟩) ∧
    (∃ p2, Portfolio.remove_holding
        ⟨1000, [("PLTR", ⟨"PLTR", 10, 1100, 110⟩)], [], "2026-01-01", 1⟩ "PLTR" 10 130
        = .ok p2 ∧
      lookupH p2.holdings "PLTR" = none) := by
  have h := C2_remove_holding_partial_full
    ⟨1000, [("PLTR", ⟨"PLTR", 10, 1100, 110⟩)], [], "2026-01-01", 1⟩
    "PLTR" ⟨"PLTR", 10, 1100, 110⟩ 4 130 (by norm_num [lookupH]) (by norm_num)
  exact ⟨h.1 (by norm_num) (by norm_num), h.2⟩

theorem applyBuys_loop (symbol : String) (buys : List (ℚ × ℚ)) :
    ∀ (p : Portfolio) (S C A : ℚ),
      lookupH p.holdings symbol = some ⟨symbol, S, C, A⟩ → 0 < S →
      (∀ b ∈ buys, 0 < b.1) →
      ∃ p1, applyBuys p symbol buys = .ok p1 ∧
        lookupH p1.holdings symbol =
          some ⟨symbol, S + buysShares buys, C + buysCost buys,
                if buys = [] then A
                else round2 ((C + buysCost buys) / (S + buysShares buys))⟩ := by
  induction buys with
  | nil =>
    intro p S C A hl hS _
    refine ⟨p, rfl, ?_⟩
    simpa [buysShares, buysCost] using hl
  | cons b rest ih =>
    intro p S C A hl hS hpos
    obtain ⟨s, pr⟩ := b
    have hs : 0 < s := hpos (s, pr) (List.mem_cons_self _ _)
    have hS1 : 0 < S + s := by linarith
    have hadd : p.add_holding symbol s pr
        = .ok { p with holdings := setH p.holdings symbol (Holding.mk symbol (S + s)
            (C + s * pr) (round2 ((C + s * pr) / (S + s)))) } := by
      simp only [Portfolio.add_holding, hl]
      rw [if_neg (ne_of_gt hS1)]
    obtain ⟨p1, hp1, hlk⟩ := ih { p with holdings := (setH p.holdings symbol
        (Holding.mk symbol (S + s) (C + s * pr) (round2 ((C + s * pr) / (S + s))))) }
      (S + s) (C + s * pr) (round2 ((C + s * pr) / (S + s)))
      (lookupH_setH_self _ _ _) hS1 (fun b hb => hpos b (List.mem_cons_of_mem _ hb))
    have happ : applyBuys p symbol ((s, pr) :: rest)
        = applyBuys { p with holdings := (setH p.holdings symbol
            (Holding.mk symbol (S + s) (C + s * pr) (round2 ((C + s * pr) / (S + s))))) }
          symbol rest := by
      simp only [applyBuys, hadd]
    refine ⟨p1, by rw [happ]; exact hp1, ?_⟩
    rw [hlk]
    by_cases hrest : rest = []
    · subst hrest
      simp [buysShares, buysCost]
    · simp only [buysShares, buysCost, List.map_cons, List.sum_cons,
        if_neg hrest, if_neg (List.cons_ne_nil _ _)]
      refine congrArg some ?_
      have e1 : S + s + (rest.map fun b => b.1).sum
          = S + (s + (rest.map fun b => b.1).sum) := by ring
      have e2 : C + s * pr + (rest.map fun b => b.1 * b.2).sum
          = C + (s * pr + (rest.map fun b => b.1 * b.2).sum) := by ring
      rw [Holding.mk.injEq]
      exact ⟨rfl, e1, e2, by rw [e1, e2]⟩

/-- Claim C1: applying a non-empty sequence of buys (each of positively
many shares) of one symbol through `add_holding`, starting from a
portfolio without that symbol, yields a holding whose `cost_basis` is
exactly the total spent `sum(si * pi)` and whose `avg_price` equals the
weighted average `sum(si * pi) / sum(si)` within rounding tolerance
(half a cent, since `avg_price` is stored rounded to 2 decimals). -/
theorem C1_weighted_average (p : Portfolio) (symbol : String) (buys : List (ℚ × ℚ))
    (habs : lookupH p.holdings symbol = none) (hne : buys ≠ [])
    (hpos : ∀ b ∈ buys, 0 < b.1) :
    ∃ p1 h, applyBuys p symbol buys = .ok p1 ∧
      lookupH p1.holdings symbol = some h ∧
      h.shares = buysShares buys ∧
      h.cost_basis = buysCost buys ∧
      |h.avg_price - buysCost buys / buysShares buys| ≤ 1 / 200 := by
  cases buys with
  | nil => exact absurd rfl hne
  | cons b rest =>
    obtain ⟨s, pr⟩ := b
    have hs : 0 < s := hpos (s, pr) (List.mem_cons_self _ _)
    have hadd : p.add_holding symbol s pr
        = .ok { p with holdings := (setH p.holdings symbol
            (Holding.mk symbol s (s * pr) pr)) } := by
      simp only [Portfolio.add_holding, habs]
    obtain ⟨p1, hp1, hlk⟩ := applyBuys_loop symbol rest
      { p with holdings := (setH p.holdings symbol (Holding.mk symbol s (s * pr) pr)) }
      s (s * pr) pr (lookupH_setH_self _ _ _) hs
      (fun b hb => hpos b (List.mem_cons_of_mem _ hb))
    have happ : applyBuys p symbol ((s, pr) :: rest)
        = applyBuys { p with holdings := (setH p.holdings symbol
            (Holding.mk symbol s (s * pr) pr)) } symbol rest := by
      simp only [applyBuys, hadd]
    have hsh : buysShares ((s, pr) :: rest) = s + buysShares rest := by
      simp [buysShares]
    have hcb : buysCost ((s, pr) :: rest) = s * pr + buysCost rest := by
      simp [buysCost]
    refine ⟨p1, _, by rw [happ]; exact hp1, hlk, by simp [hsh], by simp [hcb], ?_⟩
    by_cases hrest : rest = []
    · subst hrest
      simp only [if_pos rfl, buysShares, buysCost, List.map_cons, List.map_nil,
        List.sum_cons, List.sum_nil, add_zero]
      have : s * pr / s = pr := by
        field_simp
      rw [this]
      simp
    · rw [if_neg hrest, hsh, hcb]
      exact round2_sub_le _

/-- Witness for C1: two buys of PLTR, 5 shares at 100 then 5 at 120,
starting from an empty ledger; total cost 1100 over 10 shares. -/
theorem C1_weighted_average_witness :
    ∃ p1 h, applyBuys ⟨2000, [], [], "2026-01-01", 1⟩ "PLTR" [(5, 100), (5, 120)] = .ok p1 ∧
      lookupH p1.holdings "PLTR" = some h ∧
      h.shares = buysShares [(5, 100), (5, 120)] ∧
      h.cost_basis = buysCost [(5, 100), (5, 120)] ∧
      |h.avg_price - buysCost [(5, 100), (5, 120)] / buysShares [(5, 100), (5, 120)]| ≤ 1 / 200 :=
  C1_weighted_average ⟨2000, [], [], "2026-01-01", 1⟩ "PLTR" [(5, 100), (5, 120)]
    (by norm_num [lookupH]) (by simp) (by norm_num)

/-- Claim C8: after every mutation of a holding — every `add_holding` of
positively many shares and every partial `remove_holding` — the invariant
`cost_basis == shares * avg_price` holds within rounding tolerance (half
a cent per share, as `avg_price` is stored rounded to 2 decimals) for
every holding of the ledger. -/
theorem C8_cost_basis_invariant (p : Portfolio) (symbol : String) (m : Mut)
    (hcons : ledgerConsistent p) (hok : mutOK p symbol m) (p1 : Portfolio)
    (happ : applyMut p symbol m = .ok p1) : ledgerConsistent p1 := by
  cases m with
  | add s pr =>
    have hs : 0 < s := hok
    cases hl : lookupH p.holdings symbol with
    | none =>
      simp only [applyMut, Portfolio.add_holding, hl, Except.ok.injEq] at happ
      subst happ
      intro t h hlt
      by_cases ht : t = symbol
      · subst ht
        rw [lookupH_setH_self] at hlt
        cases hlt
        refine ⟨hs, ?_⟩
        unfold holdingConsistent
        simp only []
        rw [show s * pr - s * pr = 0 by ring]
        simp only [abs_zero]
        positivity
      · rw [lookupH_setH_ne _ _ _ _ ht] at hlt
        exact hcons t h hlt
    | some ex =>
      have hex := hcons symbol ex hl
      have hne : ex.shares + s ≠ 0 := by
        have := hex.1
        positivity
      simp only [applyMut, Portfolio.add_holding, hl, if_neg hne, Except.ok.injEq] at happ
      subst happ
      intro t h hlt
      by_cases ht : t = symbol
      · subst ht
        rw [lookupH_setH_self] at hlt
        cases hlt
        have hpos1 : 0 < ex.shares + s := by have := hex.1; linarith
        refine ⟨hpos1, ?_⟩
        unfold holdingConsistent
        simp only []
        have key : ex.cost_basis + s * pr
            - (ex.shares + s) * round2 ((ex.cost_basis + s * pr) / (ex.shares + s))
            = (ex.shares + s) * ((ex.cost_basis + s * pr) / (ex.shares + s)
                - round2 ((ex.cost_basis + s * pr) / (ex.shares + s))) := by
          field_simp
        rw [key, abs_mul, abs_of_pos hpos1, abs_sub_comm]
        exact mul_le_mul_of_nonneg_left (round2_sub_le _) hpos1.le
      · rw [lookupH_setH_ne _ _ _ _ ht] at hlt
        exact hcons t h hlt
  | remove s pr =>
    obtain ⟨hs, h0, hl, hlt0⟩ := hok
    have hh0 := hcons symbol h0 hl
    have hsh0 : 0 < h0.shares := hh0.1
    simp only [applyMut, Portfolio.remove_holding, hl,
      if_neg (not_lt.mpr hlt0.le), if_neg (ne_of_lt hlt0), Except.ok.injEq] at happ
    subst happ
    intro t h hlt
    by_cases ht : t = symbol
    · subst ht
      rw [lookupH_setH_self] at hlt
      cases hlt
      refine ⟨by linarith, ?_⟩
      unfold holdingConsistent
      simp only []
      have hr0 : 0 ≤ 1 - s / h0.shares := by
        rw [sub_nonneg, div_le_one hsh0]
        exact hlt0.le
      have key : h0.cost_basis * (1 - s / h0.shares) - (h0.shares - s) * h0.avg_price
          = (1 - s / h0.shares) * (h0.cost_basis - h0.shares * h0.avg_price) := by
        field_simp
        ring
      rw [key, abs_mul, abs_of_nonneg hr0]
      have hb := hh0.2
      unfold holdingConsistent at hb
      calc (1 - s / h0.shares) * |h0.cost_basis - h0.shares * h0.avg_price|
          ≤ (1 - s / h0.shares) * (h0.shares * (1 / 200)) :=
            mul_le_mul_of_nonneg_left hb hr0
        _ = (h0.shares - s) * (1 / 200) := by
            field_simp
    · rw [lookupH_setH_ne _ _ _ _ ht] at hlt
      exact hcons t h hlt

/-- Witness for C8: partial sell of 4 from a 10-share PLTR holding with
cost basis 1100 and average price 110; the resulting ledger still
satisfies the invariant. -/
theorem C8_cost_basis_invariant_witness :
    ledgerConsistent ⟨1000, [("PLTR", ⟨"PLTR", 6, 1100 * (1 - 4 / 10), 110⟩)], [],
      "2026-01-01", 1⟩ := by
  have hcons : ledgerConsistent ⟨1000, [("PLTR", ⟨"PLTR", 10, 1100, 110⟩)], [],
      "2026-01-01", 1⟩ := by
    intro t h hlt
    simp only [lookupH] at hlt
    by_cases ht : "PLTR" = t
    · rw [if_pos ht] at hlt
      cases hlt
      exact ⟨by norm_num, by unfold holdingConsistent; norm_num⟩
    · rw [if_neg ht] at hlt
      cases hlt
  refine C8_cost_basis_invariant ⟨1000, [("PLTR", ⟨"PLTR", 10, 1100, 110⟩)], [],
      "2026-01-01", 1⟩ "PLTR" (.remove 4 130) hcons ?_ _ ?_
  · exact ⟨by norm_num, ⟨"PLTR", 10, 1100, 110⟩, by norm_num [lookupH], by norm_num⟩
  · norm_num [applyMut, Portfolio.remove_holding, lookupH, setH]

theorem validate_buy_accept_cash (BENCH : List String) (prices : PriceMap) (p : Portfolio)
    (symbol : String) (shares price : ℚ) (m : Msg)
    (hv : validate_buy BENCH prices p symbol shares price = .ok (true, m)) :
    shares * price ≤ p.cash := by
  by_cases h1 : symbol ∈ BENCH
  · simp only [validate_buy, if_pos h1] at hv
    simp at hv
  · by_cases h2 : p.cash < shares * price
    · exfalso
      simp only [validate_buy, if_neg h1, if_pos h2] at hv
      by_cases h3 : price = 0
      · rw [if_pos h3] at hv; cases hv
      · rw [if_neg h3] at hv; simp at hv
    · exact not_lt.mp h2

theorem add_holding_frame (p : Portfolio) (symbol : String) (shares price : ℚ)
    (p2 : Portfolio) (h : p.add_holding symbol shares price = .ok p2) :
    p2.cash = p.cash ∧ p2.transactions = p.transactions ∧ p2.day = p.day ∧
    p2.start_date = p.start_date ∧
    (∃ h1, lookupH p2.holdings symbol = some h1 ∧
      h1.shares = (match lookupH p.holdings symbol with
                   | some h0 => h0.shares
                   | none => 0) + shares) ∧
    (∀ t, t ≠ symbol → lookupH p2.holdings t = lookupH p.holdings t) := by
  cases hl : lookupH p.holdings symbol with
  | some ex =>
    simp only [Portfolio.add_holding, hl] at h
    by_cases hne : ex.shares + shares = 0
    · rw [if_pos hne] at h; cases h
    · rw [if_neg hne] at h
      simp only [Except.ok.injEq] at h
      subst h
      refine ⟨rfl, rfl, rfl, rfl, ⟨_, lookupH_setH_self _ _ _, by simp [hl]⟩,
        fun t ht => lookupH_setH_ne _ _ _ _ ht⟩
  | none =>
    simp only [Portfolio.add_holding, hl, Except.ok.injEq] at h
    subst h
    refine ⟨rfl, rfl, rfl, rfl, ⟨_, lookupH_setH_self _ _ _, by simp [hl]⟩,
      fun t ht => lookupH_setH_ne _ _ _ _ ht⟩

theorem execute_buy_success_spec (BENCH : List String) (prices : PriceMap) (p : Portfolio)
    (symbol : String) (shares : ℚ) (priceArg : Option ℚ) (p1 : Portfolio) (r : TradeResult)
    (hex : execute_buy BENCH prices p symbol shares priceArg = .ok (p1, r))
    (hs : r.success = true) :
    ∃ price p2,
      r.price = price ∧
      shares * price ≤ p.cash ∧
      Portfolio.add_holding { p with cash := p.cash - shares * price } symbol shares price
        = .ok p2 ∧
      p1 = p2.record_transaction "BUY" symbol shares price := by
  cases hpr : (match priceArg with | some pr => some pr | none => lookupP prices symbol) with
  | none =>
    simp only [execute_buy, hpr, Except.ok.injEq, Prod.mk.injEq] at hex
    rw [← hex.2] at hs
    simp at hs
  | some price =>
    cases hv : validate_buy BENCH prices p symbol shares price with
    | error e =>
      simp only [execute_buy, hpr, hv] at hex
      exact Except.noConfusion hex
    | ok vm =>
      obtain ⟨valid, msg⟩ := vm
      cases valid with
      | false =>
        simp only [execute_buy, hpr, hv, Bool.false_eq_true, if_false,
          Except.ok.injEq, Prod.mk.injEq] at hex
        rw [← hex.2] at hs
        simp at hs
      | true =>
        cases hadd : Portfolio.add_holding { p with cash := p.cash - shares * price }
            symbol shares price with
        | error e =>
          simp only [execute_buy, hpr, hv, if_true, hadd] at hex
          exact Except.noConfusion hex
        | ok p2 =>
          simp only [execute_buy, hpr, hv, if_true, hadd,
            Except.ok.injEq, Prod.mk.injEq] at hex
          refine ⟨price, p2, ?_, validate_buy_accept_cash _ _ _ _ _ _ _ hv, hadd, hex.1.symm⟩
          rw [← hex.2]

/-- Claim C3: along any sequence of BUY orders executed through
`execute_buy` in which every order passes validation (returns a success
result), starting from non-negative cash, the cash stays non-negative.
The statement quantifies over arbitrary sequences, so every intermediate
state is covered by instantiating it at a prefix. -/
theorem C3_no_negative_cash (BENCH : List String) (prices : PriceMap)
    (ts : List (String × ℚ × Option ℚ)) :
    ∀ p p1, 0 ≤ p.cash → runBuys BENCH prices p ts = some p1 → 0 ≤ p1.cash := by
  induction ts with
  | nil =>
    intro p p1 hc hrun
    simp only [runBuys, Option.some.injEq] at hrun
    rwa [← hrun]
  | cons t rest ih =>
    intro p p1 hc hrun
    unfold runBuys at hrun
    cases hex : execute_buy BENCH prices p t.1 t.2.1 t.2.2 with
    | error e =>
      simp only [hex] at hrun
      exact Option.noConfusion hrun
    | ok qr =>
      obtain ⟨q, r⟩ := qr
      simp only [hex] at hrun
      cases hsucc : r.success with
      | false =>
        rw [hsucc] at hrun
        simp at hrun
      | true =>
        rw [hsucc] at hrun
        simp only [if_true] at hrun
        refine ih q p1 ?_ hrun
        obtain ⟨price, p2, hrp, hle, hadd, hq⟩ :=
          execute_buy_success_spec _ _ _ _ _ _ _ _ hex hsucc
        have hframe := add_holding_frame _ _ _ _ _ hadd
        have hq2 : q.cash = p.cash - t.2.1 * price := by
          rw [hq]
          show p2.cash = _
          rw [hframe.1]
        rw [hq2]
        linarith

/-- Witness for C3: one accepted BUY of 5 PLTR at 10 from 1000 cash
leaves 950, which is non-negative. -/
theorem C3_no_negative_cash_witness :
    0 ≤ (Portfolio.mk 950 [("PLTR", ⟨"PLTR", 5, 50, 10⟩)]
      [⟨"BUY", "PLTR", 5, 10, 50⟩] "2026-01-01" 1).cash := by
  have hns : ¬ ("PLTR" = "SPY") := by decide
  refine C3_no_negative_cash BENCHMARK_ONLY [] [("PLTR", 5, some 10)]
    ⟨1000, [], [], "2026-01-01", 1⟩ _ (by norm_num) ?_
  norm_num [runBuys, execute_buy, validate_buy, BENCHMARK_ONLY, hns, pyInt, RISK,
    Portfolio.get_total_value, Portfolio.get_holdings_value, lookupH, setH, round2,
    Portfolio.add_holding, Portfolio.record_transaction]

/-- Claim C10: a successful BUY of `shares` of `symbol` through
`execute_buy` changes exactly three things — cash drops by exactly
`shares * price`, the symbol's holding is created or its share count
increased by `shares`, and exactly one BUY transaction is appended — while
`day`, `start_date` and every other symbol's holding are unchanged. -/
theorem C10_buy_frame (BENCH : List String) (prices : PriceMap) (p : Portfolio)
    (symbol : String) (shares : ℚ) (priceArg : Option ℚ) (p1 : Portfolio) (r : TradeResult)
    (hex : execute_buy BENCH prices p symbol shares priceArg = .ok (p1, r))
    (hs : r.success = true) :
    p1.cash = p.cash - shares * r.price ∧
    (∃ h1, lookupH p1.holdings symbol = some h1 ∧
      h1.shares = (match lookupH p.holdings symbol with
                   | some h0 => h0.shares
                   | none => 0) + shares) ∧
    p1.transactions = p.transactions
      ++ [⟨"BUY", symbol, shares, r.price, round2 (shares * r.price)⟩] ∧
    p1.day = p.day ∧ p1.start_date = p.start_date ∧
    (∀ t, t ≠ symbol → lookupH p1.holdings t = lookupH p.holdings t) := by
  obtain ⟨price, p2, hrp, hle, hadd, hp1⟩ :=
    execute_buy_success_spec _ _ _ _ _ _ _ _ hex hs
  have hframe := add_holding_frame _ _ _ _ _ hadd
  subst hp1
  rw [hrp]
  refine ⟨?_, ?_, ?_, ?_, ?_, ?_⟩
  · show p2.cash = p.cash - shares * price
    rw [hframe.1]
  · exact hframe.2.2.2.2.1
  · show p2.transactions ++ _ = p.transactions ++ _
    rw [hframe.2.1]
  · exact hframe.2.2.1
  · exact hframe.2.2.2.1
  · exact hframe.2.2.2.2.2

/-- Witness for C10 at a concrete successful buy: 5 PLTR at 10 from a
fresh 1000-cash ledger. -/
theorem C10_buy_frame_witness :
    ∃ p1 r, execute_buy BENCHMARK_ONLY [] ⟨1000, [], [], "2026-01-01", 1⟩
        "PLTR" 5 (some 10) = .ok (p1, r) ∧ r.success = true ∧
      p1.cash = 1000 - 5 * r.price ∧ p1.day = 1 := by
  have hns : ¬ ("PLTR" = "SPY") := by decide
  have hex : execute_buy BENCHMARK_ONLY [] ⟨1000, [], [], "2026-01-01", 1⟩
      "PLTR" 5 (some 10)
      = .ok (⟨950, [("PLTR", ⟨"PLTR", 5, 50, 10⟩)], [⟨"BUY", "PLTR", 5, 10, 50⟩],
          "2026-01-01", 1⟩,
        { success := true, message := .bought 5 "PLTR" 10, symbol := "PLTR",
          action := "BUY", shares := 5, price := 10, total := 50 }) := by
    norm_num [execute_buy, validate_buy, BENCHMARK_ONLY, hns, pyInt, RISK,
      Portfolio.get_total_value, Portfolio.get_holdings_value, lookupH, setH, round2,
      Portfolio.add_holding, Portfolio.record_transaction]
  have h := C10_buy_frame BENCHMARK_ONLY [] ⟨1000, [], [], "2026-01-01", 1⟩
    "PLTR" 5 (some 10) _ _ hex rfl
  exact ⟨_, _, hex, rfl, h.1, h.2.2.2.1⟩

/-- Claim C4: a BUY whose resulting position value over total value would
exceed `max_position_pct` is rejected by `execute_buy`, and the ledger is
returned unchanged (same cash, same holdings mapping, same transactions —
the whole `Portfolio` value is identical). -/
theorem C4_position_limit_rejected (BENCH : List String) (prices : PriceMap)
    (p : Portfolio) (symbol : String) (shares price : ℚ)
    (hlim : RISK.max_position_pct <
      (shares * price + (match lookupH p.holdings symbol with
                         | some h => h.shares * price
                         | none => 0)) / p.get_total_value prices) :
    ∃ r, execute_buy BENCH prices p symbol shares (some price) = .ok (p, r) ∧
      r.success = false := by
  have hpct : (0 : ℚ) < RISK.max_position_pct := by norm_num [RISK]
  by_cases hb : symbol ∈ BENCH
  · have hv : validate_buy BENCH prices p symbol shares price
        = .ok (false, .benchmarkBlocked symbol) := by
      simp only [validate_buy, if_pos hb]
    refine ⟨{ success := false, message := .benchmarkBlocked symbol }, ?_, rfl⟩
    simp only [execute_buy, hv, Bool.false_eq_true, if_false]
  · by_cases hcash : p.cash < shares * price
    · have hp0 : price ≠ 0 := by
        intro h0
        subst h0
        have hpv : (shares * 0 + (match lookupH p.holdings symbol with
                    | some h => h.shares * 0
                    | none => 0)) = 0 := by
          cases lookupH p.holdings symbol with
          | some h => simp
          | none => simp
        rw [hpv, zero_div] at hlim
        exact absurd hlim (not_lt.mpr hpct.le)
      have hv : validate_buy BENCH prices p symbol shares price
          = .ok (false, .insufficientCash p.cash (shares * price)
              (pyInt (p.cash / price))) := by
        simp only [validate_buy, if_neg hb, if_pos hcash, if_neg hp0]
      refine ⟨{ success := false, message := (Msg.insufficientCash p.cash (shares * price)
        (pyInt (p.cash / price))) }, ?_, rfl⟩
      simp only [execute_buy, hv, Bool.false_eq_true, if_false]
    · have htv : p.get_total_value prices ≠ 0 := by
        intro h0
        rw [h0, div_zero] at hlim
        exact absurd hlim (not_lt.mpr hpct.le)
      have hv : validate_buy BENCH prices p symbol shares price
          = .ok (false, .positionLimit RISK.max_position_pct) := by
        simp only [validate_buy, if_neg hb, if_neg hcash, if_neg htv, if_pos hlim]
      refine ⟨{ success := false, message := .positionLimit RISK.max_position_pct }, ?_, rfl⟩
      simp only [execute_buy, hv, Bool.false_eq_true, if_false]

/-- Witness for C4: 30 shares of PLTR at 10 against a 1000-cash ledger
would be 30% of total value, above the 25% cap; the buy is rejected and
the ledger value is unchanged. -/
theorem C4_position_limit_rejected_witness :
    ∃ r, execute_buy BENCHMARK_ONLY [] ⟨1000, [], [], "2026-01-01", 1⟩
        "PLTR" 30 (some 10)
      = .ok (⟨1000, [], [], "2026-01-01", 1⟩, r) ∧ r.success = false :=
  C4_position_limit_rejected BENCHMARK_ONLY [] ⟨1000, [], [], "2026-01-01", 1⟩
    "PLTR" 30 10
    (by norm_num [RISK, lookupH, Portfolio.get_total_value,
      Portfolio.get_holdings_value, round2])

/-- Claim C5 (refuted by the code): `execute_trade` is claimed never to
raise.  At the concrete input below — a ledger with zero cash and no
holdings, a BUY of 0 shares at price 10 — the position-size check divides
by `total_value = 0` and Python raises `ZeroDivisionError` to the caller
instead of returning a failure `TradeResult`. -/
theorem C5_execute_trade_raises :
    execute_trade BENCHMARK_ONLY [] ⟨0, [], [], "2026-01-01", 1⟩
      "buy" "PLTR" 0 (some 10) = .error .zeroDivision := by
  have hbuy : pyUpper "buy" = "BUY" := by decide
  have hpltr : pyUpper "PLTR" = "PLTR" := by decide
  have hns : ¬ ("PLTR" = "SPY") := by decide
  norm_num [execute_trade, execute_buy, validate_buy, BENCHMARK_ONLY, hbuy, hpltr, hns,
    Portfolio.get_total_value, Portfolio.get_holdings_value, lookupH, round2]

/-- Counterexample to claim C6 as stated: a SELL of the blocked benchmark
symbol SPY is not rejected by validation when the ledger holds SPY —
`validate_sell` performs no blocked-symbol check. -/
theorem C6_sell_not_blocked_counterexample :
    "SPY" ∈ BENCHMARK_ONLY ∧
    validate_sell ⟨1000, [("SPY", ⟨"SPY", 5, 500, 100⟩)], [], "2026-01-01", 1⟩
      "SPY" 1 = (true, .valid) := by
  constructor
  · simp [BENCHMARK_ONLY]
  · norm_num [validate_sell, lookupH]

/-- Claim C6, amended: a proposed BUY of any symbol in the blocked set is
always rejected by validation; a proposed SELL of a blocked symbol is
rejected only when the ledger does not hold it (`validate_sell` checks
position and share count, not the blocked set). -/
theorem C6_blocked_symbol_validation (BENCH : List String) (prices : PriceMap)
    (p : Portfolio) (symbol : String) (shares price : ℚ) (hmem : symbol ∈ BENCH) :
    validate_buy BENCH prices p symbol shares price
      = .ok (false, .benchmarkBlocked symbol) ∧
    (lookupH p.holdings symbol = none → validate_sell p symbol shares
      = (false, .noPosition symbol)) := by
  constructor
  · simp only [validate_buy, if_pos hmem]
  · intro habs
    simp only [validate_sell, habs]

/-- Witness for C6 (amended) at SPY against an empty ledger. -/
theorem C6_blocked_symbol_validation_witness :
    validate_buy BENCHMARK_ONLY [] ⟨1000, [], [], "2026-01-01", 1⟩ "SPY" 1 100
      = .ok (false, .benchmarkBlocked "SPY") ∧
    validate_sell ⟨1000, [], [], "2026-01-01", 1⟩ "SPY" 1
      = (false, .noPosition "SPY") := by
  have h := C6_blocked_symbol_validation BENCHMARK_ONLY []
    ⟨1000, [], [], "2026-01-01", 1⟩ "SPY" 1 100 (by simp [BENCHMARK_ONLY])
  exact ⟨h.1, h.2 rfl⟩

/-- Claim C7 (refuted by the code): the spec's syntactic validation
(`shares > 0`, non-empty symbol) does not exist in `validate_buy` /
`validate_sell`.  A BUY of -5 shares and a BUY of the empty symbol both
pass validation, and the -5-share BUY executes, increasing cash to 1050
and creating a negative holding — contradicting the data model's
non-negative `shares` and the no-short-positions non-goal. -/
theorem C7_no_syntactic_validation :
    validate_buy BENCHMARK_ONLY [] ⟨1000, [], [], "2026-01-01", 1⟩ "PLTR" (-5) 10
      = .ok (true, .valid) ∧
    validate_buy BENCHMARK_ONLY [] ⟨1000, [], [], "2026-01-01", 1⟩ "" 5 10
      = .ok (true, .valid) ∧
    execute_buy BENCHMARK_ONLY [] ⟨1000, [], [], "2026-01-01", 1⟩ "PLTR" (-5) (some 10)
      = .ok (⟨1050, [("PLTR", ⟨"PLTR", -5, -50, 10⟩)], [⟨"BUY", "PLTR", -5, 10, -50⟩],
          "2026-01-01", 1⟩,
        { success := true, message := .bought (-5) "PLTR" 10, symbol := "PLTR",
          action := "BUY", shares := -5, price := 10, total := -50 }) := by
  have hns : ¬ ("PLTR" = "SPY") := by decide
  have hes : ¬ ("" = "SPY") := by decide
  refine ⟨?_, ?_, ?_⟩
  · norm_num [validate_buy, BENCHMARK_ONLY, hns, pyInt, RISK,
      Portfolio.get_total_value, Portfolio.get_holdings_value, lookupH, round2]
  · norm_num [validate_buy, BENCHMARK_ONLY, hes, pyInt, RISK,
      Portfolio.get_total_value, Portfolio.get_holdings_value, lookupH, round2]
  · have hr : round ((-5000 : ℚ)) = (-5000 : ℤ) := by
      rw [show ((-5000 : ℚ)) = ((-5000 : ℤ) : ℚ) by norm_num]
      exact round_intCast _
    norm_num [execute_buy, validate_buy, BENCHMARK_ONLY, hns, pyInt, RISK,
      Portfolio.get_total_value, Portfolio.get_holdings_value, lookupH, setH, round2,
      Portfolio.add_holding, Portfolio.record_transaction, hr]

theorem lastN_cons_of_le (x : ℚ) (xs : List ℚ) (k : ℕ) (hk : k ≤ xs.length) :
    lastN (x :: xs) k = lastN xs k := by
  unfold lastN
  have hlen : (x :: xs).length - k = (xs.length - k) + 1 := by
    simp only [List.length_cons]
    omega
  rw [hlen, List.drop_succ_cons]

theorem lastN_map (f : ℚ → ℚ) (xs : List ℚ) (k : ℕ) :
    lastN (xs.map f) k = (lastN xs k).map f := by
  unfold lastN
  rw [List.length_map]
  exact (List.map_drop f xs (xs.length - k)).symm

/-- Counterexample to claim C9 as stated: a perfectly flat 15-close series
has no losses over the last 14 deltas (the average loss is exactly 0), yet
the code computes `rs = 0/0 = NaN` and the RSI is NaN (modelled `none`),
not 100. -/
theorem C9_flat_series_counterexample :
    (∀ d ∈ lastN (deltas (List.replicate 15 (100 : ℚ))) 14, 0 ≤ d) ∧
    rsiLast (List.replicate 15 (100 : ℚ)) = none ∧
    rsiLast (List.replicate 15 (100 : ℚ)) ≠ some 100 := by
  have h2 : rsiLast (List.replicate 15 (100 : ℚ)) = none := by
    norm_num [rsiLast, deltas, lastN, gainPart, lossPart, List.replicate]
  refine ⟨?_, h2, ?_⟩
  · intro d hd
    simp only [deltas, lastN, List.replicate] at hd
    norm_num at hd
    simp [hd]
  · rw [h2]
    exact fun h => Option.noConfusion h

/-- Claim C9, amended: a price series of at least 15 closes whose last 14
single-period deltas contain no losses and at least one strict gain has
RSI exactly 100; when every delta of the window is exactly zero the
average gain is also zero and the RSI is NaN rather than 100. -/
theorem C9_rsi_no_losses (closes : List ℚ) (hlen : 15 ≤ closes.length)
    (hnl : ∀ d ∈ lastN (deltas closes) 14, 0 ≤ d)
    (hg : ∃ d ∈ lastN (deltas closes) 14, 0 < d) :
    rsiLast closes = some 100 := by
  have hdlen : (deltas closes).length = closes.length - 1 := by
    unfold deltas
    rw [List.length_zipWith, List.length_tail]
    omega
  have hglen : ((deltas closes).map gainPart).length = closes.length - 1 := by
    rw [List.length_map, hdlen]
  have hllen : ((deltas closes).map lossPart).length = closes.length - 1 := by
    rw [List.length_map, hdlen]
  have hg14 : lastN ((0 : ℚ) :: (deltas closes).map gainPart) 14
      = (lastN (deltas closes) 14).map gainPart := by
    rw [lastN_cons_of_le _ _ _ (by omega), lastN_map]
  have hl14 : lastN ((0 : ℚ) :: (deltas closes).map lossPart) 14
      = (lastN (deltas closes) 14).map lossPart := by
    rw [lastN_cons_of_le _ _ _ (by omega), lastN_map]
  have hloss : ((lastN (deltas closes) 14).map lossPart).sum = 0 := by
    apply List.sum_eq_zero
    intro x hx
    obtain ⟨d, hd, rfl⟩ := List.mem_map.mp hx
    unfold lossPart
    rw [if_neg (not_lt.mpr (hnl d hd))]
  obtain ⟨d0, hd0, hd0pos⟩ := hg
  have hgain : 0 < ((lastN (deltas closes) 14).map gainPart).sum := by
    have hmem : gainPart d0 ∈ (lastN (deltas closes) 14).map gainPart :=
      List.mem_map_of_mem _ hd0
    have hle : gainPart d0 ≤ ((lastN (deltas closes) 14).map gainPart).sum := by
      refine List.single_le_sum ?_ _ hmem
      intro x hx
      obtain ⟨d, hd, rfl⟩ := List.mem_map.mp hx
      unfold gainPart
      split
      · exact (hnl d hd)
      · exact le_refl 0
    have hgp : gainPart d0 = d0 := if_pos hd0pos
    rw [hgp] at hle
    linarith
  unfold rsiLast
  rw [if_neg (by omega : ¬ closes.length < 14)]
  have hgne : ¬ ((List.map gainPart (lastN (deltas closes) 14)).sum / 14 = 0) := by
    intro h0
    rw [div_eq_zero_iff] at h0
    rcases h0 with h0 | h0
    · exact absurd h0 (ne_of_gt hgain)
    · norm_num at h0
  simp only [hg14, hl14, hloss, zero_div, if_true, if_neg hgne]

/-- Witness for C9 (amended): a strictly increasing 15-close series has
RSI exactly 100. -/
theorem C9_rsi_no_losses_witness :
    rsiLast [1, 2, 3, 4, 5, 6, 7, 8, 9, 10, 11, 12, 13, 14, 15] = some 100 := by
  refine C9_rsi_no_losses _ (by norm_num) ?_ ?_
  · intro d hd
    norm_num [deltas, lastN] at hd
    rw [hd]
    norm_num
  · refine ⟨1, ?_, by norm_num⟩
    norm_num [deltas, lastN]
